import Mathlib

/-!
Verification development for the SE422Team6 photo-gallery repository.

The repository holds two Flask web applications over the same domain model —
`partA_dynamodb/app.py` (DynamoDB key-value backend) and `partB_mongodb/app.py`
(MongoDB document backend) — plus `partC_migration/migrate_dynamo_to_mongo.py`,
a one-shot migration utility copying all metadata from the DynamoDB tables to
the MongoDB collections.

This file shallowly embeds the record model and the store-facing logic of the
three Python files.  Stores (DynamoDB tables, MongoDB collections) are embedded
as Lean lists of records in insertion order; where an external store's
documented semantics leaves an order unspecified (MongoDB `sort` tie order)
the operation is embedded as a relation rather than a function.
-/

namespace PhotoGallery

/-! ## Character and string helpers

Python string primitives used by the apps: `str.lower` (ASCII case fold is the
relevant fragment), `str.strip` (removes leading/trailing Python whitespace),
and the substring test `q in s`. -/

/-- ASCII lower-casing of one character, the fragment of Python `str.lower`
exercised by the apps. -/
def lc (c : Char) : Char := c.toLower

/-- Python whitespace for `str.strip`: space, tab, newline, carriage return,
vertical tab (11) and form feed (12). -/
def isPySpace (c : Char) : Bool :=
  c == ' ' || c == '\t' || c == '\n' || c == '\r' || c.toNat == 11 || c.toNat == 12

/-- Python `str.strip()` on a character list: drop whitespace from both ends. -/
def stripL (s : List Char) : List Char :=
  ((s.dropWhile isPySpace).reverse.dropWhile isPySpace).reverse

/-- Python `str.lower()` on a character list. -/
def lowerL (s : List Char) : List Char := s.map lc

/-- Python `str.strip()` on a string. -/
def stripStr (s : String) : String := ⟨stripL s.data⟩

/-- Python `str.lower()` on a string. -/
def lowerStr (s : String) : String := ⟨lowerL s.data⟩

/-- Prefix test on character lists (exact character equality). -/
def isPreL : List Char → List Char → Bool
  | [], _ => true
  | _ :: _, [] => false
  | a :: as, b :: bs => a == b && isPreL as bs

/-- Python's substring operator `q in s` on character lists. -/
def isSubstrL (q : List Char) : List Char → Bool
  | [] => isPreL q []
  | c :: cs => isPreL q (c :: cs) || isSubstrL q cs

/-! ## The MongoDB `$regex` match used by part B's search

Part B sends the raw query string as `{"$regex": q, "$options": "i"}`.  The
regex engine is external to the repository; it is embedded here for the
pattern fragment the equivalence question turns on: patterns made of literal
characters and the metacharacter `.` (match any one character), unanchored,
case-insensitive.  Patterns free of every regex metacharacter fall inside
this fragment and are matched literally, exactly as the real engine does. -/

/-- One regex-match attempt anchored at the start of the text: each pattern
character must match the corresponding text character, `.` matching anything,
others matching up to ASCII case. -/
def matchesAt : List Char → List Char → Bool
  | [], _ => true
  | _ :: _, [] => false
  | p :: ps, t :: ts => (p == '.' || lc p == lc t) && matchesAt ps ts

/-- Unanchored case-insensitive regex search, as MongoDB applies `$regex`
with option `i`: the pattern may match at any position of the text. -/
def regexFind (p : List Char) : List Char → Bool
  | [] => matchesAt p []
  | c :: cs => matchesAt p (c :: cs) || regexFind p cs

/-- The PCRE metacharacters.  A query containing none of these is interpreted
by the document backend as a literal string. -/
def isMeta (c : Char) : Bool :=
  c.toNat ∈ [46, 94, 36, 42, 43, 63, 40, 41, 91, 93, 123, 125, 124, 92]

/-! ## Records

Field names are exactly the dictionary keys the Python code writes. -/

/-- A user record, as written by `register` in both apps:
`{username, password, email, created_at}`. -/
structure User where
  username : String
  password : String
  email : String
  created_at : String
deriving DecidableEq, Repr

/-- A photo record, as written by `upload` in both apps:
`{photo_id, username, filename, s3_key, tags, description, uploaded_at}`. -/
structure Photo where
  photo_id : String
  username : String
  filename : String
  s3_key : String
  tags : String
  description : String
  uploaded_at : String
deriving DecidableEq, Repr

/-! ## Search (partA `search`, lines 201–216; partB `search`, lines 184–199)

Part A lowers and strips the query, returns `[]` on an empty query, scans the
photos table filtered on `username`, and keeps the photos whose lowered
`filename`, `tags` or `description` contains the query as a substring.

Part B strips the query, returns `[]` on an empty query, and runs a MongoDB
`find` with an equality condition on `username` and an `$or` of
case-insensitive `$regex` conditions over the three text fields.  The `find`
has no sort; results are embedded in collection (insertion) order, which is
immaterial to the set-level claims stated about search. -/

/-- Part A's per-photo match: `q in filename.lower() or q in tags.lower() or
q in description.lower()` for the already-lowered query `q`. -/
def substrHit (q : List Char) (p : Photo) : Bool :=
  isSubstrL q (lowerL p.filename.data) ||
  isSubstrL q (lowerL p.tags.data) ||
  isSubstrL q (lowerL p.description.data)

/-- Part A `search`: DynamoDB scan filtered on `username`, then an in-process
substring filter against the stripped, lowered query. -/
def searchA (tbl : List Photo) (user qraw : String) : List Photo :=
  let q := lowerL (stripL qraw.data)
  if q = [] then []
  else (tbl.filter (fun p => p.username == user)).filter (substrHit q)

/-- Part B's per-photo match: the `$or` of the three `$regex` conditions. -/
def regexHit (q : List Char) (p : Photo) : Bool :=
  regexFind q p.filename.data ||
  regexFind q p.tags.data ||
  regexFind q p.description.data

/-- Part B `search`: one MongoDB `find` combining the `username` equality and
the `$or` of case-insensitive regex matches, against the stripped query. -/
def searchB (col : List Photo) (user qraw : String) : List Photo :=
  let q := stripL qraw.data
  if q = [] then []
  else col.filter (fun p => p.username == user && regexHit q p)

/-! ## Gallery (partA `gallery`, lines 153–160; partB `gallery`, lines 135–143)

Part A scans the photos table with an equality filter on `username` and then
sorts in process with Python's `list.sort(key=..., reverse=True)` — a stable
descending sort on the `uploaded_at` string.  The scan's enumeration order is
embedded as the table's list order.

Part B issues a MongoDB `find` with `.sort("uploaded_at", -1)`.  MongoDB
guarantees only the ordering on the sort key; the relative order of documents
with equal `uploaded_at` is unspecified, so the operation is embedded as a
relation over admissible outputs. -/

/-- Insert a photo into a descending-sorted list, after every element with a
strictly larger key: this is how a stable sort places a later element among
earlier ones with equal keys. -/
def insOrd (p : Photo) : List Photo → List Photo
  | [] => [p]
  | q :: qs => if p.uploaded_at < q.uploaded_at then q :: insOrd p qs else p :: q :: qs

/-- Stable descending sort on `uploaded_at`, the embedding of Python's
`items.sort(key=lambda p: p.get("uploaded_at", ""), reverse=True)`. -/
def sortGallery : List Photo → List Photo
  | [] => []
  | p :: ps => insOrd p (sortGallery ps)

/-- Part A `gallery`: scan filtered on `username`, then the stable
in-process descending sort. -/
def galleryA (tbl : List Photo) (user : String) : List Photo :=
  sortGallery (tbl.filter (fun p => p.username == user))

/-- Sorted by `uploaded_at` descending. -/
def SortedDesc (l : List Photo) : Prop :=
  l.Pairwise (fun a b => b.uploaded_at ≤ a.uploaded_at)

/-- Part B `gallery` as a relation over admissible outputs: MongoDB's
documented guarantee for `find(...).sort("uploaded_at", -1)` is that the
output is the matching documents ordered by `uploaded_at` descending; the
order among equal keys is unspecified. -/
def galleryB_rel (col : List Photo) (user : String) (out : List Photo) : Prop :=
  out.Perm (col.filter (fun p => p.username == user)) ∧ SortedDesc out

/-! ## Keyed-store primitives shared by registration, deletion and migration

Both DynamoDB tables and the MongoDB collections are keyed stores: DynamoDB by
its hash key, MongoDB through the unique indexes on `username` / `photo_id`.
A store is embedded as a list of records in insertion order; lookup, keyed
replacement and keyed deletion act on the (unique) matching record. -/

/-- Lookup by natural key: DynamoDB `get_item` / MongoDB `find_one` on the
key field. -/
def findByKey (k : α → String) (key : String) : List α → Option α
  | [] => none
  | r :: rs => if k r = key then some r else findByKey k key rs

/-- Keyed replace-or-insert: MongoDB `ReplaceOne(filter-by-key, doc,
upsert=True)` — replace the matching record if the key is present, append the
record otherwise. -/
def upsertByKey (k : α → String) (x : α) : List α → List α
  | [] => [x]
  | r :: rs => if k r = k x then x :: rs else r :: upsertByKey k x rs

/-- Keyed deletion: DynamoDB `delete_item` / MongoDB `delete_one` on the key
field; removing an absent key is a no-op. -/
def deleteByKey (k : α → String) (key : String) : List α → List α
  | [] => []
  | r :: rs => if k r = key then rs else r :: deleteByKey k key rs

/-! ## Migration utility (`partC_migration/migrate_dynamo_to_mongo.py`)

`scan_all` embeds the paginated full scan (lines 37–50): the source table is
presented as the sequence of pages the scan loop receives, and the loop
accumulates them in order until no continuation token remains.

`bulkUpsert` embeds `bulk_write` over the `ReplaceOne(..., upsert=True)`
operations (lines 60–66 and 76–82) together with the counts the utility
reports: `upserted_count` is the number of operations that inserted a new
document, and `modified_count` — per MongoDB's documented semantics — is the
number of operations that matched an existing document *and changed it*; a
replacement identical to the stored document is matched but not modified. -/

/-- Paginated full scan: the loop of `scan_all` extends `items` with each
page until the continuation token is absent. -/
def scan_all : List (List α) → List α
  | [] => []
  | page :: rest => page ++ scan_all rest

/-- MongoDB `bulk_write` over `ReplaceOne(filter-by-key, record, upsert=True)`
operations, applied in batch order.  Returns the final collection together
with `(upserted_count, modified_count)`. -/
def bulkUpsert (k : α → String) [DecidableEq α] : List α → List α → List α × Nat × Nat
  | col, [] => (col, 0, 0)
  | col, x :: xs =>
    let rest := bulkUpsert k (upsertByKey k x col) xs
    match findByKey k (k x) col with
    | some r => (rest.1, rest.2.1, (if r = x then 0 else 1) + rest.2.2)
    | none => (rest.1, 1 + rest.2.1, rest.2.2)

/-- One collection's migration (`migrate_users` / `migrate_photos` lines
53–66 / 69–82): if the scan found nothing the function returns early and
reports no counts; otherwise it bulk-upserts every scanned record and reports
`(upserted_count, modified_count)`. -/
def migrateColl (k : α → String) [DecidableEq α] (src dest : List α) :
    List α × Option (Nat × Nat) :=
  if src = [] then (dest, none)
  else
    let r := bulkUpsert k dest src
    (r.1, some (r.2.1, r.2.2))

/-- `migrate_users`: upsert every scanned user keyed by `username`. -/
def migrate_users (src dest : List User) : List User × Option (Nat × Nat) :=
  migrateColl (fun u => u.username) src dest

/-- `migrate_photos`: upsert every scanned photo keyed by `photo_id`. -/
def migrate_photos (src dest : List Photo) : List Photo × Option (Nat × Nat) :=
  migrateColl (fun p => p.photo_id) src dest

/-- Whether a record's natural key is absent from the destination. -/
def isFresh (k : α → String) (dest : List α) (x : α) : Bool :=
  (findByKey k (k x) dest).isNone

/-- Number of scanned records whose natural key is absent from the
destination before the run.  Spec-side count used to state what the reported
`upserted_count` equals. -/
def freshCount (k : α → String) (dest batch : List α) : Nat :=
  (batch.filter (isFresh k dest)).length

/-- Whether a record's natural key is present in the destination with a
stored record different from the incoming one. -/
def isChanged (k : α → String) [DecidableEq α] (dest : List α) (x : α) : Bool :=
  match findByKey k (k x) dest with
  | some r => decide (r ≠ x)
  | none => false

/-- Number of scanned records whose natural key is present in the destination
before the run with a stored record different from the incoming one.
Spec-side count used to state what the reported `modified_count` equals. -/
def overwriteCount (k : α → String) [DecidableEq α] (dest batch : List α) : Nat :=
  (batch.filter (isChanged k dest)).length

/-- Number of scanned records whose natural key is present in the destination
before the run, whatever the stored record holds.  This is the count the
claim about migration reporting expects for the second reported number. -/
def preexistingCount (k : α → String) (dest batch : List α) : Nat :=
  (batch.filter (fun x => (findByKey k (k x) dest).isSome)).length

/-! ## Registration (partA `register`, lines 107–127; partB `register`,
lines 90–110)

The two backends' store logic is identical and is embedded once: strip the
three form fields, reject when username or password is empty, reject with a
conflict when the username is already present (DynamoDB `get_item` /
MongoDB `find_one`), otherwise append the new record.  The password hash
(SHA-256 hex digest) and the creation timestamp are opaque to everything
proved here and are passed in as parameters. -/

/-- Outcome of a registration attempt. -/
inductive RegResult
  | validationError
  | conflict
  | created
deriving DecidableEq, Repr

/-- The shared `register` logic of both backends. -/
def register (hash : String → String) (now : String) (store : List User)
    (username password email : String) : RegResult × List User :=
  let un := stripStr username
  let pw := stripStr password
  let em := stripStr email
  if un = "" ∨ pw = "" then (.validationError, store)
  else if (findByKey (fun u => u.username) un store).isSome then (.conflict, store)
  else (.created, store ++ [⟨un, hash pw, em, now⟩])

/-- A registration request: username, password, email and the creation
timestamp the server would observe. -/
structure RegReq where
  username : String
  password : String
  email : String
  now : String

/-- Run a sequence of registration requests against a store. -/
def runRegisters (hash : String → String) : List User → List RegReq → List User
  | store, [] => store
  | store, r :: rest =>
    runRegisters hash (register hash r.now store r.username r.password r.email).2 rest

/-! ## Download and delete (partA lines 220–244; partB lines 203–227)

Part A fetches by `photo_id` alone and then compares the record's `username`
with the session user; part B folds both conditions into one `find_one`.
The `notFound` outcome carries nothing and is the exact response of the
absent-id case; the blob read (`get_object`), blob delete (`delete_object`)
and metadata delete happen only on the other path, so the constructors record
precisely which effects occur. -/

/-- Outcome of a download: either the not-found redirect, or the blob read of
`s3_key` followed by sending it under `filename`. -/
inductive FetchResult
  | notFound
  | found (s3Key : String) (filename : String)
deriving DecidableEq, Repr

/-- Outcome of a delete: either the not-found redirect, or the blob delete of
`s3Key` together with the metadata delete. -/
inductive DeleteResult
  | notFound
  | deleted (s3Key : String)
deriving DecidableEq, Repr

/-- Part A `download`: `get_item` by `photo_id`, then the owner check. -/
def downloadA (tbl : List Photo) (requester pid : String) : FetchResult :=
  match findByKey (fun p => p.photo_id) pid tbl with
  | none => .notFound
  | some item =>
    if item.username = requester then .found item.s3_key item.filename else .notFound

/-- Part B's `find_one({"photo_id": pid, "username": requester})`. -/
def findOneOwned (requester pid : String) : List Photo → Option Photo
  | [] => none
  | p :: ps =>
    if p.photo_id = pid ∧ p.username = requester then some p
    else findOneOwned requester pid ps

/-- Part B `download`: one conjunctive `find_one`. -/
def downloadB (col : List Photo) (requester pid : String) : FetchResult :=
  match findOneOwned requester pid col with
  | none => .notFound
  | some item => .found item.s3_key item.filename

/-- Part A `delete`: `get_item` by `photo_id`, owner check, then
`delete_object` on the blob key and `delete_item` on the record. -/
def deleteA (tbl : List Photo) (requester pid : String) : DeleteResult × List Photo :=
  match findByKey (fun p => p.photo_id) pid tbl with
  | none => (.notFound, tbl)
  | some item =>
    if item.username = requester
    then (.deleted item.s3_key, deleteByKey (fun p => p.photo_id) pid tbl)
    else (.notFound, tbl)

/-- Part B `delete`: conjunctive `find_one`, then `delete_object` and
`delete_one`. -/
def deleteB (col : List Photo) (requester pid : String) : DeleteResult × List Photo :=
  match findOneOwned requester pid col with
  | none => (.notFound, col)
  | some item => (.deleted item.s3_key, deleteByKey (fun p => p.photo_id) pid col)

/-! ## Upload (partA `upload`, lines 164–197; partB `upload`, lines 147–180)

The two backends' upload logic is identical up to the store written to and is
embedded once.  The request carries a list of files; the handler returns
early — touching no store — when the list is empty or its *first* file has an
empty filename.  Otherwise each file whose name passes `_ok_file` produces a
blob write and one photo record, and increments the reported count; a file
failing the check is silently skipped.  (The extra Python truthiness test
`if f and ...` only excludes empty filenames, which `_ok_file` already
rejects.)  `secure_filename` and the per-file `uuid4` generator are external
and passed in as parameters, the id generator indexed by how many files were
accepted so far. -/

/-- The allowed photo extensions, `ALLOWED_EXT` in both apps. -/
def ALLOWED_EXT : List String := ["png", "jpg", "jpeg", "gif", "bmp", "webp"]

/-- The characters after the last dot: Python's `name.rsplit(".", 1)[1]`
when `"." in name` holds. -/
def extOf (name : String) : String :=
  ⟨(name.data.reverse.takeWhile (fun c => ¬ c = '.')).reverse⟩

/-- Part A's `_ok_file` (lines 51–52): the name contains a dot and the
lowercased text after the last dot is an allowed extension. -/
def ok_fileA (name : String) : Bool :=
  name.data.contains '.' && decide (lowerStr (extOf name) ∈ ALLOWED_EXT)

/-- Part B's `_ok_file` (lines 59–60), textually identical to part A's. -/
def ok_fileB (name : String) : Bool :=
  name.data.contains '.' && decide (lowerStr (extOf name) ∈ ALLOWED_EXT)

/-- One submitted file; only its filename matters to the store logic. -/
structure UpFile where
  filename : String
deriving DecidableEq, Repr

/-- The photo record written for an accepted file. -/
def mkPhoto (sf : String → String) (user tags desc now pid : String) (f : UpFile) : Photo :=
  let safe := sf f.filename
  ⟨pid, user, safe, "photos/" ++ user ++ "/" ++ pid ++ "_" ++ safe, tags, desc, now⟩

/-- The upload loop over the submitted files: state is the id-generator index,
the photo store, the list of blob keys written so far, and the count. -/
def uploadLoop (sf : String → String) (fresh : Nat → String) (user tags desc now : String) :
    Nat → List Photo → List String → Nat → List UpFile → List Photo × List String × Nat
  | _, tbl, puts, cnt, [] => (tbl, puts, cnt)
  | i, tbl, puts, cnt, f :: fs =>
    if ok_fileA f.filename then
      let ph := mkPhoto sf user tags desc now (fresh i) f
      uploadLoop sf fresh user tags desc now (i + 1)
        (tbl ++ [ph]) (puts ++ [ph.s3_key]) (cnt + 1) fs
    else uploadLoop sf fresh user tags desc now i tbl puts cnt fs

/-- Result of an upload request: the early "No files selected" return, or the
final photo store, the blob keys written, and the flashed count. -/
inductive UploadResult
  | noFiles
  | done (tbl : List Photo) (blobPuts : List String) (count : Nat)
deriving DecidableEq, Repr

/-- The shared `upload` handler logic of both backends. -/
def upload (sf : String → String) (fresh : Nat → String) (user : String)
    (tbl : List Photo) (files : List UpFile) (tagsRaw descRaw now : String) : UploadResult :=
  match files with
  | [] => .noFiles
  | f0 :: _ =>
    if f0.filename = "" then .noFiles
    else
      let r := uploadLoop sf fresh user (stripStr tagsRaw) (stripStr descRaw) now
        0 tbl [] 0 files
      .done r.1 r.2.1 r.2.2

/-- Spec-side description of the records the upload loop appends: one record
per accepted file, in submission order, with id-generator indices advancing
only on accepted files. -/
def acceptedPhotos (sf : String → String) (fresh : Nat → String)
    (user tags desc now : String) : Nat → List UpFile → List Photo
  | _, [] => []
  | i, f :: fs =>
    if ok_fileA f.filename then
      mkPhoto sf user tags desc now (fresh i) f :: acceptedPhotos sf fresh user tags desc now (i + 1) fs
    else acceptedPhotos sf fresh user tags desc now i fs

/-! ## Concrete records for counterexamples and witnesses -/

/-- A photo of alice whose text fields contain no dot. -/
def demoPhoto : Photo := ⟨"p1", "alice", "abc", "k1", "", "", "T1"⟩

/-- A photo of alice, first in insertion order of a tied pair. -/
def demoTie1 : Photo := ⟨"p1", "alice", "a.png", "k1", "", "", "T"⟩

/-- A second photo of alice with the same `uploaded_at` as `demoTie1`. -/
def demoTie2 : Photo := ⟨"p2", "alice", "b.png", "k2", "", "", "T"⟩

/-- A user record already present in the destination of a migration re-run. -/
def demoUser : User := ⟨"bob", "h", "e", "T0"⟩

/-! # Theorems -/

/-! ## Search: literal substring vs. case-insensitive regex (C1, C7) -/

/-- A pattern without the `.` metacharacter matches at a position exactly when
it is a case-insensitive literal prefix there. -/
theorem matchesAt_no_dot (p : List Char) (h : ∀ c ∈ p, c ≠ '.') :
    ∀ t, matchesAt p t = isPreL (lowerL p) (lowerL t) := by
  induction p with
  | nil => intro t; rfl
  | cons c ps ih =>
    intro t
    cases t with
    | nil => rfl
    | cons d ds =>
      have hc : (c == '.') = false := by
        simp only [beq_eq_false_iff_ne, ne_eq]
        exact h c (by simp)
      simp only [matchesAt, isPreL, lowerL, List.map_cons, hc, Bool.false_or]
      rw [ih (fun e he => h e (List.mem_cons_of_mem _ he)) ds]
      rfl

/-- A pattern without the `.` metacharacter is found in a text exactly when it
is a case-insensitive literal substring of it. -/
theorem regexFind_no_dot (p : List Char) (h : ∀ c ∈ p, c ≠ '.') :
    ∀ t, regexFind p t = isSubstrL (lowerL p) (lowerL t) := by
  intro t
  induction t with
  | nil =>
    simp only [regexFind, isSubstrL, lowerL, List.map_nil]
    have := matchesAt_no_dot p h []
    simpa [lowerL] using this
  | cons c cs ih =>
    simp only [regexFind, isSubstrL, lowerL, List.map_cons]
    rw [ih]
    have := matchesAt_no_dot p h (c :: cs)
    simp only [lowerL, List.map_cons] at this
    rw [this]
    rfl

/-- On a metacharacter-free query the document backend's per-photo regex test
agrees with the key-value backend's lowered substring test. -/
theorem regexHit_no_meta (q : List Char) (h : ∀ c ∈ q, isMeta c = false) (p : Photo) :
    regexHit q p = substrHit (lowerL q) p := by
  have hd : ∀ c ∈ q, c ≠ '.' := by
    intro c hc heq
    subst heq
    have : isMeta '.' = true := by decide
    rw [h _ hc] at this
    exact Bool.false_ne_true this
  simp only [regexHit, substrHit, regexFind_no_dot q hd]

/-- C1, corrected (counterexample): on identical data and identical inputs the
two backends' search differs once the query contains a regex metacharacter.
With one stored photo whose text fields are `"abc"`, `""`, `""`, the query
`"."` matches nothing in the key-value backend (literal substring) but matches
the photo in the document backend (regex `.` matches any character). -/
theorem C1_regex_metachar_counterexample :
    searchA [demoPhoto] "alice" "." ≠ searchB [demoPhoto] "alice" "." := by
  decide

/-- C1, amended: for every store, owner and query string whose characters
(after stripping) contain no regex metacharacter, `searchPhotosByOwner` in the
key-value backend and in the document backend return identical results — the
case-insensitive substring match against filename OR tags OR description.
Queries containing regex metacharacters are excluded: the document backend
interprets them as regular-expression syntax. -/
theorem C1_search_backends_agree_on_literal_queries
    (tbl : List Photo) (user qraw : String)
    (h : ∀ c ∈ stripL qraw.data, isMeta c = false) :
    searchA tbl user qraw = searchB tbl user qraw := by
  unfold searchA searchB
  by_cases he : stripL qraw.data = []
  · simp [he, lowerL]
  · have hl : lowerL (stripL qraw.data) ≠ [] := by
      simpa [lowerL, List.map_eq_nil_iff] using he
    rw [if_neg hl, if_neg he, List.filter_filter]
    apply List.filter_congr
    intro p _
    rw [regexHit_no_meta _ h p, Bool.and_comm]

/-- Witness for C1's amended theorem at a concrete input: the
metacharacter-free query `"ab"`. -/
theorem C1_search_backends_agree_witness :
    (∀ c ∈ stripL "ab".data, isMeta c = false) ∧
    searchA [demoPhoto] "alice" "ab" = searchB [demoPhoto] "alice" "ab" :=
  ⟨by decide,
   C1_search_backends_agree_on_literal_queries [demoPhoto] "alice" "ab" (by decide)⟩

/-- C7, confirmed: in both backends an empty query returns an empty result
sequence, whatever the store holds — the empty query is not a match-all. -/
theorem C7_empty_query_empty_result (tbl col : List Photo) (user : String) :
    searchA tbl user "" = [] ∧ searchB col user "" = [] :=
  ⟨rfl, rfl⟩

/-! ## Gallery ordering and owner isolation (C5, C6) -/

/-- Ordered insertion produces a permutation of consing. -/
theorem insOrd_perm (p : Photo) (l : List Photo) : List.Perm (insOrd p l) (p :: l) := by
  induction l with
  | nil => exact List.Perm.refl _
  | cons q qs ih =>
    simp only [insOrd]
    split
    · exact (ih.cons q).trans (List.Perm.swap p q qs)
    · exact List.Perm.refl _

/-- The gallery sort permutes its input. -/
theorem sortGallery_perm (l : List Photo) : List.Perm (sortGallery l) l := by
  induction l with
  | nil => exact List.Perm.refl _
  | cons p ps ih => exact (insOrd_perm p (sortGallery ps)).trans (ih.cons p)

/-- Ordered insertion preserves descending sortedness. -/
theorem insOrd_sorted (p : Photo) (l : List Photo) (h : SortedDesc l) :
    SortedDesc (insOrd p l) := by
  induction l with
  | nil => simp [insOrd, SortedDesc]
  | cons q qs ih =>
    rw [SortedDesc, List.pairwise_cons] at h
    obtain ⟨hq, hqs⟩ := h
    simp only [insOrd]
    split
    · rename_i hlt
      rw [SortedDesc, List.pairwise_cons]
      refine ⟨?_, ih hqs⟩
      intro b hb
      rcases List.mem_cons.mp ((insOrd_perm p qs).mem_iff.mp hb) with rfl | hbqs
      · exact le_of_lt hlt
      · exact hq b hbqs
    · rename_i hnlt
      push_neg at hnlt
      rw [SortedDesc, List.pairwise_cons]
      refine ⟨?_, List.Pairwise.cons hq hqs⟩
      intro b hb
      rcases List.mem_cons.mp hb with rfl | hbqs
      · exact hnlt
      · exact le_trans (hq b hbqs) hnlt

/-- The gallery sort sorts descending on `uploaded_at`. -/
theorem sortGallery_sorted (l : List Photo) : SortedDesc (sortGallery l) := by
  induction l with
  | nil => simp [sortGallery, SortedDesc]
  | cons p ps ih => exact insOrd_sorted p (sortGallery ps) ih

/-- Inserting an element whose key equals `t` puts it in front of the other
`t`-keyed elements: the skipped elements all have strictly larger keys. -/
theorem insOrd_filter_eq (p : Photo) (l : List Photo) (t : String)
    (hp : p.uploaded_at = t) :
    (insOrd p l).filter (fun a => a.uploaded_at == t) =
      p :: l.filter (fun a => a.uploaded_at == t) := by
  induction l with
  | nil => simp [insOrd, hp]
  | cons q qs ih =>
    simp only [insOrd]
    split
    · rename_i hlt
      have hq : (q.uploaded_at == t) = false := by
        rw [beq_eq_false_iff_ne]
        subst hp
        exact ne_of_gt hlt
      simp [List.filter_cons, hq, ih]
    · simp [List.filter_cons, hp]

/-- Inserting an element whose key differs from `t` leaves the `t`-keyed
subsequence unchanged. -/
theorem insOrd_filter_ne (p : Photo) (l : List Photo) (t : String)
    (hp : p.uploaded_at ≠ t) :
    (insOrd p l).filter (fun a => a.uploaded_at == t) =
      l.filter (fun a => a.uploaded_at == t) := by
  induction l with
  | nil => simp [insOrd, List.filter_cons, hp]
  | cons q qs ih =>
    simp only [insOrd]
    split
    · simp [List.filter_cons, ih]
    · simp [List.filter_cons, hp]

/-- Stability of the gallery sort: elements sharing an `uploaded_at` value
keep their relative input order. -/
theorem sortGallery_stable (l : List Photo) (t : String) :
    (sortGallery l).filter (fun a => a.uploaded_at == t) =
      l.filter (fun a => a.uploaded_at == t) := by
  induction l with
  | nil => rfl
  | cons p ps ih =>
    simp only [sortGallery]
    by_cases hp : p.uploaded_at = t
    · rw [insOrd_filter_eq p _ t hp, ih, List.filter_cons, if_pos (by simp [hp])]
    · rw [insOrd_filter_ne p _ t hp, ih, List.filter_cons, if_neg (by simp [hp])]

/-- C6, corrected (counterexample): the document backend's `sort` guarantees
only the ordering on `uploaded_at`.  With two photos of alice sharing one
timestamp, the output listing them in reversed insertion order is admissible
for the document backend, so ties are not guaranteed to follow insertion
order there; the key-value backend's in-process stable sort does keep them
in scan order. -/
theorem C6_tie_order_counterexample :
    galleryB_rel [demoTie1, demoTie2] "alice" [demoTie2, demoTie1] ∧
    [demoTie2, demoTie1] ≠ [demoTie1, demoTie2] ∧
    galleryA [demoTie1, demoTie2] "alice" = [demoTie1, demoTie2] := by
  refine ⟨⟨?_, ?_⟩, by decide, ?_⟩
  · have hf : ([demoTie1, demoTie2].filter (fun p => p.username == "alice")) =
        [demoTie1, demoTie2] := by decide
    rw [hf]
    exact List.Perm.swap demoTie1 demoTie2 []
  · rw [SortedDesc, List.pairwise_cons]
    exact ⟨by intro b hb; rcases List.mem_singleton.mp hb with rfl; exact le_refl _,
      List.pairwise_singleton _ _⟩
  · have hf : ([demoTie1, demoTie2].filter (fun p => p.username == "alice")) =
        [demoTie1, demoTie2] := by decide
    rw [galleryA, hf]
    simp only [sortGallery, insOrd]
    have hT : demoTie1.uploaded_at = demoTie2.uploaded_at := rfl
    rw [hT, if_neg (lt_irrefl _)]

/-- C6, amended: in both backends `listPhotosByOwner(owner)` returns exactly
the owner's photos ordered by `uploadedAt` descending.  In the key-value
backend ties keep the relative order of the scanned sequence (a stable
in-process sort); in the document backend any tie order is admissible, so
ties are not guaranteed to follow insertion order. -/
theorem C6_gallery_order (tbl : List Photo) (user : String) :
    (∀ p, p ∈ galleryA tbl user ↔ p ∈ tbl ∧ p.username = user) ∧
    SortedDesc (galleryA tbl user) ∧
    (∀ t, (galleryA tbl user).filter (fun a => a.uploaded_at == t) =
      (tbl.filter (fun p => p.username == user)).filter (fun a => a.uploaded_at == t)) ∧
    (∀ out, galleryB_rel tbl user out →
      (∀ p, p ∈ out ↔ p ∈ tbl ∧ p.username = user) ∧ SortedDesc out) := by
  refine ⟨?_, sortGallery_sorted _, fun t => sortGallery_stable _ t, ?_⟩
  · intro p
    rw [galleryA, (sortGallery_perm _).mem_iff, List.mem_filter]
    simp
  · rintro out ⟨hperm, hsorted⟩
    refine ⟨?_, hsorted⟩
    intro p
    rw [hperm.mem_iff, List.mem_filter]
    simp

/-- Witness for C6's amended theorem: a concrete one-photo store and a
concrete admissible output of the document backend. -/
theorem C6_gallery_order_witness :
    galleryB_rel [demoTie1] "alice" [demoTie1] ∧
    ((∀ p, p ∈ [demoTie1] ↔ p ∈ [demoTie1] ∧ p.username = "alice") ∧
      SortedDesc [demoTie1]) := by
  have hrel : galleryB_rel [demoTie1] "alice" [demoTie1] := by
    constructor
    · have hf : ([demoTie1].filter (fun p => p.username == "alice")) = [demoTie1] := by decide
      rw [hf]
    · exact List.pairwise_singleton _ _
  exact ⟨hrel, (C6_gallery_order [demoTie1] "alice").2.2.2 [demoTie1] hrel⟩

/-- C5, confirmed: a photo owned by user `A` is never visible to a different
user `B`, through listing or through search, in either backend. -/
theorem C5_owner_isolation (tbl : List Photo) (A B : String) (p : Photo)
    (hAB : A ≠ B) (hp : p.username = A) :
    p ∉ galleryA tbl B ∧ (∀ q, p ∉ searchA tbl B q) ∧
    (∀ out, galleryB_rel tbl B out → p ∉ out) ∧ (∀ q, p ∉ searchB tbl B q) := by
  have howner : ¬ (p.username == B) = true := by
    simp only [beq_iff_eq, hp]
    exact hAB
  refine ⟨?_, ?_, ?_, ?_⟩
  · intro hmem
    rw [galleryA, (sortGallery_perm _).mem_iff, List.mem_filter] at hmem
    exact howner hmem.2
  · intro q hmem
    rw [searchA] at hmem
    split at hmem
    · exact List.not_mem_nil p hmem
    · rw [List.mem_filter, List.mem_filter] at hmem
      exact howner hmem.1.2
  · rintro out ⟨hperm, -⟩ hmem
    rw [hperm.mem_iff, List.mem_filter] at hmem
    exact howner hmem.2
  · intro q hmem
    rw [searchB] at hmem
    split at hmem
    · exact List.not_mem_nil p hmem
    · rw [List.mem_filter] at hmem
      exact howner (Bool.and_elim_left hmem.2)

/-- Witness for C5 at a concrete store, owners and query. -/
theorem C5_owner_isolation_witness :
    ("alice" : String) ≠ "mallory" ∧ demoPhoto.username = "alice" ∧
    demoPhoto ∉ galleryA [demoPhoto] "mallory" ∧
    (∀ q, demoPhoto ∉ searchA [demoPhoto] "mallory" q) := by
  have h := C5_owner_isolation [demoPhoto] "alice" "mallory" demoPhoto
    (by decide) (by decide)
  exact ⟨by decide, by decide, h.1, h.2.1⟩

/-! ## Keyed-store lemmas -/

section Keyed

variable {α : Type} (k : α → String)

/-- Keyed lookup fails exactly when the key is absent. -/
theorem findByKey_eq_none_iff (key : String) (col : List α) :
    findByKey k key col = none ↔ key ∉ col.map k := by
  induction col with
  | nil => simp [findByKey]
  | cons r rs ih =>
    simp only [findByKey, List.map_cons, List.mem_cons]
    split
    · rename_i h
      simp [h.symm]
    · rename_i h
      have : ¬ key = k r := fun e => h e.symm
      simp [ih, this]

/-- A successful keyed lookup returns a member carrying the key. -/
theorem findByKey_mem {key : String} {col : List α} {r : α}
    (h : findByKey k key col = some r) : r ∈ col ∧ k r = key := by
  induction col with
  | nil => simp [findByKey] at h
  | cons s ss ih =>
    rw [findByKey] at h
    split at h
    · rename_i hs
      cases h
      exact ⟨List.mem_cons_self _ _, hs⟩
    · obtain ⟨hmem, hkey⟩ := ih h
      exact ⟨List.mem_cons_of_mem _ hmem, hkey⟩

/-- With duplicate-free keys, a keyed lookup's result is the only member
carrying the key. -/
theorem findByKey_unique {key : String} {col : List α} {r : α}
    (hnd : (col.map k).Nodup) (h : findByKey k key col = some r) :
    ∀ q ∈ col, k q = key → q = r := by
  induction col with
  | nil => simp
  | cons s ss ih =>
    rw [List.map_cons, List.nodup_cons] at hnd
    rw [findByKey] at h
    intro q hq hkq
    split at h
    · rename_i hs
      cases h
      rcases List.mem_cons.mp hq with rfl | hqs
      · rfl
      · exfalso
        apply hnd.1
        rw [hs, ← hkq]
        exact List.mem_map_of_mem k hqs
    · rename_i hs
      rcases List.mem_cons.mp hq with rfl | hqs
      · exact absurd hkq hs
      · exact ih hnd.2 h q hqs hkq

/-- After a keyed upsert, looking up the record's key finds the record. -/
theorem upsert_find_self (x : α) (col : List α) :
    findByKey k (k x) (upsertByKey k x col) = some x := by
  induction col with
  | nil => simp [upsertByKey, findByKey]
  | cons r rs ih =>
    rw [upsertByKey]
    split
    · simp [findByKey]
    · rename_i h
      rw [findByKey, if_neg h]
      exact ih

/-- A keyed upsert leaves lookups of other keys unchanged. -/
theorem upsert_find_other (x : α) {key : String} (h : key ≠ k x) (col : List α) :
    findByKey k key (upsertByKey k x col) = findByKey k key col := by
  induction col with
  | nil => simp [upsertByKey, findByKey, Ne.symm h]
  | cons r rs ih =>
    rw [upsertByKey]
    split
    · rename_i hr
      rw [findByKey, findByKey, if_neg (Ne.symm h),
        if_neg (fun e => (Ne.symm h) (hr.symm.trans e))]
    · rw [findByKey, findByKey]
      split
      · rfl
      · exact ih

/-- Upserting a record identical to the stored one is a no-op. -/
theorem upsert_noop {x : α} {col : List α}
    (h : findByKey k (k x) col = some x) : upsertByKey k x col = col := by
  induction col with
  | nil => simp [findByKey] at h
  | cons r rs ih =>
    rw [findByKey] at h
    rw [upsertByKey]
    split
    · rename_i hr
      rw [if_pos hr] at h
      cases h
      rfl
    · rename_i hr
      rw [if_neg hr] at h
      rw [ih h]

/-- Key membership after a keyed upsert. -/
theorem upsert_mem_keys (x : α) (key : String) (col : List α) :
    key ∈ (upsertByKey k x col).map k ↔ key ∈ col.map k ∨ key = k x := by
  induction col with
  | nil => simp [upsertByKey]
  | cons r rs ih =>
    rw [upsertByKey]
    split
    · rename_i hr
      simp only [List.map_cons, List.mem_cons]
      rw [hr]
      tauto
    · simp only [List.map_cons, List.mem_cons, ih]
      tauto

/-- A keyed upsert preserves duplicate-freeness of the keys. -/
theorem upsert_keys_nodup (x : α) {col : List α}
    (h : (col.map k).Nodup) : ((upsertByKey k x col).map k).Nodup := by
  induction col with
  | nil => simp [upsertByKey]
  | cons r rs ih =>
    rw [List.map_cons, List.nodup_cons] at h
    rw [upsertByKey]
    split
    · rename_i hr
      rw [List.map_cons, List.nodup_cons]
      exact ⟨hr ▸ h.1, h.2⟩
    · rename_i hr
      rw [List.map_cons, List.nodup_cons]
      refine ⟨?_, ih h.2⟩
      rw [upsert_mem_keys]
      rintro (hmem | heq)
      · exact h.1 hmem
      · exact hr heq

end Keyed

/-! ## Bulk-upsert lemmas -/

section Bulk

variable {α : Type} [DecidableEq α] (k : α → String)

/-- Unfolding the bulk write when the head record's key is present. -/
theorem bulk_cons_found {col : List α} {x r : α} (xs : List α)
    (h : findByKey k (k x) col = some r) :
    bulkUpsert k col (x :: xs) =
      ((bulkUpsert k (upsertByKey k x col) xs).1,
       (bulkUpsert k (upsertByKey k x col) xs).2.1,
       (if r = x then 0 else 1) + (bulkUpsert k (upsertByKey k x col) xs).2.2) := by
  simp [bulkUpsert, h]

/-- Unfolding the bulk write when the head record's key is absent. -/
theorem bulk_cons_none {col : List α} {x : α} (xs : List α)
    (h : findByKey k (k x) col = none) :
    bulkUpsert k col (x :: xs) =
      ((bulkUpsert k (upsertByKey k x col) xs).1,
       1 + (bulkUpsert k (upsertByKey k x col) xs).2.1,
       (bulkUpsert k (upsertByKey k x col) xs).2.2) := by
  simp [bulkUpsert, h]

/-- The collection a bulk write produces depends only on the upserts. -/
theorem bulk_fst_cons (col : List α) (x : α) (xs : List α) :
    (bulkUpsert k col (x :: xs)).1 = (bulkUpsert k (upsertByKey k x col) xs).1 := by
  rcases hfind : findByKey k (k x) col with _ | r
  · rw [bulk_cons_none k xs hfind]
  · rw [bulk_cons_found k xs hfind]

/-- A bulk write leaves lookups of keys outside the batch unchanged. -/
theorem bulk_find_untouched {key : String} : ∀ (xs col : List α),
    key ∉ xs.map k →
    findByKey k key (bulkUpsert k col xs).1 = findByKey k key col := by
  intro xs
  induction xs with
  | nil => intro col _; rfl
  | cons x ys ih =>
    intro col h
    rw [List.map_cons, List.mem_cons] at h
    push_neg at h
    rw [bulk_fst_cons, ih _ h.2, upsert_find_other k x h.1]

/-- After a bulk write with duplicate-free batch keys, each batch record is
found, unchanged, under its key. -/
theorem bulk_find_self {xs : List α} (hnd : (xs.map k).Nodup) {x : α} (hx : x ∈ xs) :
    ∀ col, findByKey k (k x) (bulkUpsert k col xs).1 = some x := by
  induction xs with
  | nil => cases hx
  | cons y ys ih =>
    rw [List.map_cons, List.nodup_cons] at hnd
    intro col
    rw [bulk_fst_cons]
    rcases List.mem_cons.mp hx with rfl | hxys
    · rw [bulk_find_untouched k ys _ hnd.1, upsert_find_self]
    · exact ih hnd.2 hxys (upsertByKey k y col)

/-- Key membership after a bulk write: the destination keys plus the batch
keys. -/
theorem bulk_mem_keys (key : String) : ∀ (xs col : List α),
    (key ∈ (bulkUpsert k col xs).1.map k) ↔ key ∈ col.map k ∨ key ∈ xs.map k := by
  intro xs
  induction xs with
  | nil => intro col; simp [bulkUpsert]
  | cons x ys ih =>
    intro col
    rw [bulk_fst_cons, ih, upsert_mem_keys]
    simp only [List.map_cons, List.mem_cons]
    tauto

/-- A bulk write preserves duplicate-freeness of the destination keys. -/
theorem bulk_keys_nodup : ∀ (xs col : List α),
    (col.map k).Nodup → ((bulkUpsert k col xs).1.map k).Nodup := by
  intro xs
  induction xs with
  | nil => intro col h; exact h
  | cons x ys ih =>
    intro col h
    rw [bulk_fst_cons]
    exact ih _ (upsert_keys_nodup k x h)

/-- A bulk write whose every record is already stored unchanged under its key
does nothing and reports `(0, 0)`. -/
theorem bulk_noop : ∀ (xs col : List α),
    (∀ x ∈ xs, findByKey k (k x) col = some x) →
    bulkUpsert k col xs = (col, 0, 0) := by
  intro xs
  induction xs with
  | nil => intro col _; rfl
  | cons x ys ih =>
    intro col h
    have hx := h x (List.mem_cons_self x ys)
    rw [bulk_cons_found k ys hx, upsert_noop k hx,
      ih col (fun y hy => h y (List.mem_cons_of_mem _ hy))]
    simp

/-- The counts a bulk write reports, for a batch with duplicate-free keys:
`upserted_count` counts batch records whose key was absent from the initial
destination; `modified_count` counts those whose key was present with a
different stored record. -/
theorem bulk_counts : ∀ (xs col : List α), (xs.map k).Nodup →
    (bulkUpsert k col xs).2.1 = freshCount k col xs ∧
    (bulkUpsert k col xs).2.2 = overwriteCount k col xs := by
  intro xs
  induction xs with
  | nil => intro col _; exact ⟨rfl, rfl⟩
  | cons x ys ih =>
    intro col hnd
    rw [List.map_cons, List.nodup_cons] at hnd
    have hcongr : ∀ y ∈ ys,
        findByKey k (k y) (upsertByKey k x col) = findByKey k (k y) col := by
      intro y hy
      apply upsert_find_other
      intro e
      exact hnd.1 (e ▸ List.mem_map_of_mem k hy)
    have hfresh : freshCount k (upsertByKey k x col) ys = freshCount k col ys := by
      unfold freshCount
      congr 1
      apply List.filter_congr
      intro y hy
      simp [isFresh, hcongr y hy]
    have hover : overwriteCount k (upsertByKey k x col) ys = overwriteCount k col ys := by
      unfold overwriteCount
      congr 1
      apply List.filter_congr
      intro y hy
      simp [isChanged, hcongr y hy]
    obtain ⟨ih1, ih2⟩ := ih (upsertByKey k x col) hnd.2
    rcases hfind : findByKey k (k x) col with _ | r
    · have hfx : isFresh k col x = true := by simp [isFresh, hfind]
      have hcx : ¬ (isChanged k col x = true) := by simp [isChanged, hfind]
      constructor
      · rw [bulk_cons_none k ys hfind]
        show 1 + (bulkUpsert k (upsertByKey k x col) ys).2.1 = _
        rw [ih1, hfresh, freshCount, freshCount, List.filter_cons, if_pos hfx,
          List.length_cons]
        omega
      · rw [bulk_cons_none k ys hfind]
        show (bulkUpsert k (upsertByKey k x col) ys).2.2 = _
        rw [ih2, hover, overwriteCount, overwriteCount, List.filter_cons, if_neg hcx]
    · have hfx : ¬ (isFresh k col x = true) := by simp [isFresh, hfind]
      constructor
      · rw [bulk_cons_found k ys hfind]
        show (bulkUpsert k (upsertByKey k x col) ys).2.1 = _
        rw [ih1, hfresh, freshCount, freshCount, List.filter_cons, if_neg hfx]
      · rw [bulk_cons_found k ys hfind]
        show (if r = x then 0 else 1) + (bulkUpsert k (upsertByKey k x col) ys).2.2 = _
        rw [ih2, hover]
        by_cases hrx : r = x
        · have hcx : ¬ (isChanged k col x = true) := by simp [isChanged, hfind, hrx]
          rw [overwriteCount, overwriteCount, List.filter_cons, if_neg hcx, if_pos hrx]
          omega
        · have hcx : isChanged k col x = true := by simp [isChanged, hfind, hrx]
          rw [overwriteCount, overwriteCount, List.filter_cons, if_pos hcx,
            if_neg hrx, List.length_cons]
          omega

/-- With duplicate-free keys on both sides and every destination key present
in the batch, the bulk write's result has exactly one record per batch
record. -/
theorem bulk_length {xs col : List α} (hxs : (xs.map k).Nodup)
    (hcol : (col.map k).Nodup) (hsub : ∀ s ∈ col.map k, s ∈ xs.map k) :
    (bulkUpsert k col xs).1.length = xs.length := by
  have h1 : ((bulkUpsert k col xs).1.map k).Nodup := bulk_keys_nodup k xs col hcol
  have h2 : ∀ s, s ∈ (bulkUpsert k col xs).1.map k ↔ s ∈ xs.map k := by
    intro s
    rw [bulk_mem_keys]
    constructor
    · rintro (h | h)
      · exact hsub s h
      · exact h
    · exact Or.inr
  have hperm : ((bulkUpsert k col xs).1.map k).Perm (xs.map k) :=
    (List.perm_ext_iff_of_nodup h1 hxs).mpr h2
  have hlen := hperm.length_eq
  simpa using hlen

/-- One collection's migration, re-run against the unchanged source: the
second run rewrites nothing, reports zero inserts and zero modifications,
and the destination holds exactly one record per source record. -/
theorem migrate_idem (src dest : List α)
    (hsrc : (src.map k).Nodup) (hdest : (dest.map k).Nodup)
    (hsub : ∀ s ∈ dest.map k, s ∈ src.map k) :
    (migrateColl k src (migrateColl k src dest).1).1 = (migrateColl k src dest).1 ∧
    (migrateColl k src dest).1.length = src.length ∧
    (∀ i m, (migrateColl k src (migrateColl k src dest).1).2 = some (i, m) →
      i = 0 ∧ m = 0) := by
  by_cases hs : src = []
  · subst hs
    have hd : dest = [] := by
      cases dest with
      | nil => rfl
      | cons d ds => exact absurd (hsub (k d) (by simp)) (by simp)
    subst hd
    refine ⟨rfl, rfl, ?_⟩
    intro i m h
    simp [migrateColl] at h
  · have hd1 : (migrateColl k src dest).1 = (bulkUpsert k dest src).1 := by
      simp [migrateColl, hs]
    have hall : ∀ x ∈ src, findByKey k (k x) (bulkUpsert k dest src).1 = some x :=
      fun x hx => bulk_find_self k hsrc hx dest
    have hnoop : bulkUpsert k (bulkUpsert k dest src).1 src =
        ((bulkUpsert k dest src).1, 0, 0) :=
      bulk_noop k src _ hall
    refine ⟨?_, ?_, ?_⟩
    · simp [migrateColl, hs, hd1, hnoop]
    · rw [hd1]
      exact bulk_length k hsrc hdest hsub
    · have hrep : (migrateColl k src (migrateColl k src dest).1).2 = some (0, 0) := by
        rw [hd1]
        simp [migrateColl, hs, hnoop]
      intro i m h
      rw [hrep] at h
      have h' := Prod.ext_iff.mp (Option.some.inj h)
      exact ⟨h'.1.symm, h'.2.symm⟩

/-- One collection's migration finds every scanned record in the destination,
unchanged, under its natural key. -/
theorem migrate_complete (pages : List (List α)) (dest : List α)
    (hsrc : ((scan_all pages).map k).Nodup) :
    ∀ x ∈ scan_all pages,
      findByKey k (k x) (migrateColl k (scan_all pages) dest).1 = some x := by
  intro x hx
  have hne : scan_all pages ≠ [] := by
    intro e
    rw [e] at hx
    cases hx
  rw [migrateColl, if_neg hne]
  exact bulk_find_self k hsrc hx dest

/-- One collection's migration reports `(freshCount, overwriteCount)`. -/
theorem migrate_report (src dest : List α)
    (hs : src ≠ []) (hnd : (src.map k).Nodup) :
    (migrateColl k src dest).2 =
      some (freshCount k dest src, overwriteCount k dest src) := by
  obtain ⟨h1, h2⟩ := bulk_counts k src dest hnd
  simp [migrateColl, hs, h1, h2]

end Bulk

/-! ## Migration claims (C2, C3, C9) -/

/-- C2, confirmed: with duplicate-free source keys (a keyed table's scan) and
a destination whose keys all come from the source (an empty destination or
one produced by earlier runs against it), a second migration run against the
unchanged source changes nothing, reports zero newly-inserted records, and
leaves the destination with exactly one record per source record — each
destination write being the keyed upsert `upsertByKey` (replace-if-exists,
insert-if-absent) on `username` resp. `photo_id`. -/
theorem C2_migration_idempotent
    (usrc udest : List User) (psrc pdest : List Photo)
    (hu : (usrc.map (fun u => u.username)).Nodup)
    (hud : (udest.map (fun u => u.username)).Nodup)
    (husub : ∀ s ∈ udest.map (fun u => u.username), s ∈ usrc.map (fun u => u.username))
    (hp : (psrc.map (fun p => p.photo_id)).Nodup)
    (hpd : (pdest.map (fun p => p.photo_id)).Nodup)
    (hpsub : ∀ s ∈ pdest.map (fun p => p.photo_id), s ∈ psrc.map (fun p => p.photo_id)) :
    ((migrate_users usrc (migrate_users usrc udest).1).1 = (migrate_users usrc udest).1 ∧
      (migrate_users usrc udest).1.length = usrc.length ∧
      (∀ i m, (migrate_users usrc (migrate_users usrc udest).1).2 = some (i, m) →
        i = 0 ∧ m = 0)) ∧
    ((migrate_photos psrc (migrate_photos psrc pdest).1).1 = (migrate_photos psrc pdest).1 ∧
      (migrate_photos psrc pdest).1.length = psrc.length ∧
      (∀ i m, (migrate_photos psrc (migrate_photos psrc pdest).1).2 = some (i, m) →
        i = 0 ∧ m = 0)) :=
  ⟨migrate_idem _ usrc udest hu hud husub, migrate_idem _ psrc pdest hp hpd hpsub⟩

/-- Witness for C2 at a concrete one-record source and empty destination. -/
theorem C2_migration_idempotent_witness :
    ([demoUser].map (fun u => u.username)).Nodup ∧
    ((migrate_users [demoUser] (migrate_users [demoUser] []).1).1 =
        (migrate_users [demoUser] []).1 ∧
      (migrate_users [demoUser] []).1.length = [demoUser].length ∧
      (∀ i m, (migrate_users [demoUser] (migrate_users [demoUser] []).1).2 = some (i, m) →
        i = 0 ∧ m = 0)) := by
  have h := C2_migration_idempotent [demoUser] [] [demoPhoto] []
    (by decide) (by decide) (by simp) (by decide) (by decide) (by simp)
  exact ⟨by decide, h.1⟩

/-- C3, confirmed: after one migration run, every record of the paginated
full scan of the source is present in the destination under its natural key,
field-for-field equal to the source record (record equality in the embedding:
nothing added, dropped or renamed). -/
theorem C3_migration_roundtrip
    (upages : List (List User)) (udest : List User)
    (ppages : List (List Photo)) (pdest : List Photo)
    (hu : ((scan_all upages).map (fun u => u.username)).Nodup)
    (hp : ((scan_all ppages).map (fun p => p.photo_id)).Nodup) :
    (∀ u ∈ scan_all upages,
      findByKey (fun v => v.username) u.username
        (migrate_users (scan_all upages) udest).1 = some u) ∧
    (∀ p ∈ scan_all ppages,
      findByKey (fun q => q.photo_id) p.photo_id
        (migrate_photos (scan_all ppages) pdest).1 = some p) :=
  ⟨fun u hu' => migrate_complete _ upages udest hu u hu',
   fun p hp' => migrate_complete _ ppages pdest hp p hp'⟩

/-- Witness for C3 at a concrete one-page, one-record source. -/
theorem C3_migration_roundtrip_witness :
    ((scan_all [[demoUser]]).map (fun u => u.username)).Nodup ∧
    findByKey (fun v => v.username) demoUser.username
      (migrate_users (scan_all [[demoUser]]) []).1 = some demoUser := by
  have h := C3_migration_roundtrip [[demoUser]] [] [[demoPhoto]] [] (by decide) (by decide)
  exact ⟨by decide, h.1 demoUser (by decide)⟩

/-- C9, corrected (counterexample): the utility reports MongoDB's
`modified_count`, which counts only matched documents that actually changed.
Migrating a one-user source into a destination that already holds the very
same record reports `(0, 0)`, although one scanned record's key previously
existed in the destination — the claim expects the second number to be 1. -/
theorem C9_report_counterexample :
    (migrate_users [demoUser] [demoUser]).2 = some (0, 0) ∧
    preexistingCount (fun u => u.username) [demoUser] [demoUser] = 1 :=
  ⟨rfl, rfl⟩

/-- C9, amended: for every destination state and non-empty scanned batch with
duplicate-free keys, the reported pair is exactly (number of scanned records
whose key was absent from the destination before the run, number of scanned
records whose key was present before the run *with a different stored
record*); records whose key was present with an identical stored record are
matched but not counted as modified. -/
theorem C9_migration_report_counts
    (usrc udest : List User) (psrc pdest : List Photo)
    (hu0 : usrc ≠ []) (hu : (usrc.map (fun u => u.username)).Nodup)
    (hp0 : psrc ≠ []) (hp : (psrc.map (fun p => p.photo_id)).Nodup) :
    (migrate_users usrc udest).2 =
      some (freshCount (fun u => u.username) udest usrc,
            overwriteCount (fun u => u.username) udest usrc) ∧
    (migrate_photos psrc pdest).2 =
      some (freshCount (fun p => p.photo_id) pdest psrc,
            overwriteCount (fun p => p.photo_id) pdest psrc) :=
  ⟨migrate_report _ usrc udest hu0 hu, migrate_report _ psrc pdest hp0 hp⟩

/-- Witness for C9's amended theorem at a concrete source and destination. -/
theorem C9_migration_report_counts_witness :
    [demoUser] ≠ ([] : List User) ∧
    (migrate_users [demoUser] []).2 =
      some (freshCount (fun u => u.username) [] [demoUser],
            overwriteCount (fun u => u.username) [] [demoUser]) := by
  have h := C9_migration_report_counts [demoUser] [] [demoPhoto] []
    (by decide) (by decide) (by decide) (by decide)
  exact ⟨by decide, h.1⟩

/-! ## Registration uniqueness (C4) -/

/-- A registration attempt never creates a duplicate username. -/
theorem register_preserves_nodup (hash : String → String) (now : String)
    (store : List User) (username password email : String)
    (h : (store.map (fun u => u.username)).Nodup) :
    (((register hash now store username password email).2).map
      (fun u => u.username)).Nodup := by
  simp only [register]
  split
  · exact h
  · split
    · exact h
    · rename_i habs
      rw [List.map_append, List.map_cons, List.map_nil]
      rw [List.nodup_append]
      refine ⟨h, List.nodup_singleton _, ?_⟩
      intro s hs hmem
      rcases List.mem_singleton.mp hmem with rfl
      have hnone : findByKey (fun u => u.username) (stripStr username) store = none := by
        rcases hf : findByKey (fun u => u.username) (stripStr username) store with _ | w
        · exact hf
        · exact absurd (by rw [hf]; rfl) habs
      exact (findByKey_eq_none_iff (fun u => u.username) (stripStr username) store).mp
        hnone hs

/-- Any sequence of registrations keeps usernames duplicate-free. -/
theorem runRegisters_nodup (hash : String → String) (reqs : List RegReq) :
    ∀ store, (store.map (fun u => u.username)).Nodup →
      ((runRegisters hash store reqs).map (fun u => u.username)).Nodup := by
  induction reqs with
  | nil => intro store h; exact h
  | cons r rest ih =>
    intro store h
    exact ih _ (register_preserves_nodup hash r.now store r.username r.password r.email h)

/-- C4, confirmed: registering a username that is already present fails with
the conflict outcome and leaves the store unchanged (given a well-formed
request: non-empty stripped username and password, which otherwise fail
validation before the duplicate check); consequently any sequence of
registrations starting from the empty store keeps at most one record per
username.  Both backends' `register` embed to the same store logic. -/
theorem C4_create_user_conflict_unique
    (hash : String → String) (now : String) (store : List User)
    (username password email : String)
    (hun : stripStr username ≠ "") (hpw : stripStr password ≠ "")
    (hpresent : (findByKey (fun u => u.username) (stripStr username) store).isSome) :
    register hash now store username password email = (RegResult.conflict, store) ∧
    ∀ reqs, ((runRegisters hash [] reqs).map (fun u => u.username)).Nodup := by
  constructor
  · simp only [register]
    rw [if_neg (not_or.mpr ⟨hun, hpw⟩), if_pos hpresent]
  · intro reqs
    exact runRegisters_nodup hash reqs [] (by simp)

/-- Witness for C4: registering the already-present username `"bob"`. -/
theorem C4_create_user_conflict_unique_witness :
    stripStr "bob" ≠ "" ∧
    (findByKey (fun u => u.username) (stripStr "bob") [demoUser]).isSome = true ∧
    register (fun s => s) "T1" [demoUser] "bob" "pw" "" =
      (RegResult.conflict, [demoUser]) := by
  have h := C4_create_user_conflict_unique (fun s => s) "T1" [demoUser] "bob" "pw" ""
    (by decide) (by decide) (by decide)
  exact ⟨by decide, by decide, h.1⟩

/-! ## Owner mismatch on download and delete (C8) -/

/-- A hit of part B's conjunctive lookup is a member matching both
conditions. -/
theorem findOneOwned_some {requester pid : String} {col : List Photo} {p : Photo}
    (h : findOneOwned requester pid col = some p) :
    p ∈ col ∧ p.photo_id = pid ∧ p.username = requester := by
  induction col with
  | nil => simp [findOneOwned] at h
  | cons q qs ih =>
    rw [findOneOwned] at h
    split at h
    · rename_i hq
      cases h
      exact ⟨List.mem_cons_self _ _, hq.1, hq.2⟩
    · obtain ⟨hm, h1, h2⟩ := ih h
      exact ⟨List.mem_cons_of_mem _ hm, h1, h2⟩

/-- When the uniquely keyed record belongs to someone else, part B's
conjunctive lookup finds nothing. -/
theorem findOneOwned_none_of_mismatch {tbl : List Photo} {requester pid : String}
    {p : Photo}
    (hnd : (tbl.map (fun q => q.photo_id)).Nodup)
    (hfind : findByKey (fun q => q.photo_id) pid tbl = some p)
    (howner : p.username ≠ requester) :
    findOneOwned requester pid tbl = none := by
  rcases hq : findOneOwned requester pid tbl with _ | q
  · rfl
  · exfalso
    obtain ⟨hm, h1, h2⟩ := findOneOwned_some hq
    have hqp : q = p := findByKey_unique _ hnd hfind q hm h1
    rw [hqp] at h2
    exact howner h2

/-- An absent photo id makes part B's conjunctive lookup find nothing. -/
theorem findOneOwned_none_of_absent {tbl : List Photo} (requester : String)
    {pid : String}
    (hfind : findByKey (fun q => q.photo_id) pid tbl = none) :
    findOneOwned requester pid tbl = none := by
  rcases hq : findOneOwned requester pid tbl with _ | q
  · rfl
  · exfalso
    obtain ⟨hm, h1, -⟩ := findOneOwned_some hq
    exact (findByKey_eq_none_iff (fun q => q.photo_id) pid tbl).mp hfind
      (h1 ▸ List.mem_map_of_mem (fun q => q.photo_id) hm)

/-- C8, confirmed: in both backends, when the photo exists but belongs to
someone else, download and delete answer exactly the not-found outcome of the
absent-id case; the store is unchanged and no blob read, blob delete or
metadata delete occurs (those effects exist only on the found paths of the
result type). -/
theorem C8_owner_mismatch_not_found
    (tbl : List Photo) (requester pid : String) (p : Photo)
    (hnd : (tbl.map (fun q => q.photo_id)).Nodup)
    (hfind : findByKey (fun q => q.photo_id) pid tbl = some p)
    (howner : p.username ≠ requester) :
    downloadA tbl requester pid = FetchResult.notFound ∧
    deleteA tbl requester pid = (DeleteResult.notFound, tbl) ∧
    downloadB tbl requester pid = FetchResult.notFound ∧
    deleteB tbl requester pid = (DeleteResult.notFound, tbl) ∧
    (∀ tbl2 : List Photo, findByKey (fun q => q.photo_id) pid tbl2 = none →
      downloadA tbl2 requester pid = FetchResult.notFound ∧
      deleteA tbl2 requester pid = (DeleteResult.notFound, tbl2) ∧
      downloadB tbl2 requester pid = FetchResult.notFound ∧
      deleteB tbl2 requester pid = (DeleteResult.notFound, tbl2)) := by
  have hnone := findOneOwned_none_of_mismatch hnd hfind howner
  refine ⟨?_, ?_, ?_, ?_, ?_⟩
  · simp [downloadA, hfind, howner]
  · simp [deleteA, hfind, howner]
  · simp [downloadB, hnone]
  · simp [deleteB, hnone]
  · intro tbl2 h2
    have hnone2 := findOneOwned_none_of_absent requester h2
    exact ⟨by simp [downloadA, h2], by simp [deleteA, h2],
      by simp [downloadB, hnone2], by simp [deleteB, hnone2]⟩

/-- Witness for C8: mallory requesting alice's photo. -/
theorem C8_owner_mismatch_not_found_witness :
    findByKey (fun q => q.photo_id) "p1" [demoPhoto] = some demoPhoto ∧
    demoPhoto.username ≠ "mallory" ∧
    downloadA [demoPhoto] "mallory" "p1" = FetchResult.notFound ∧
    deleteB [demoPhoto] "mallory" "p1" = (DeleteResult.notFound, [demoPhoto]) := by
  have h := C8_owner_mismatch_not_found [demoPhoto] "mallory" "p1" demoPhoto
    (by decide) (by decide) (by decide)
  exact ⟨by decide, by decide, h.1, h.2.2.2.1⟩

/-! ## Upload acceptance predicate (C10) -/

/-- One record is produced per accepted file. -/
theorem acceptedPhotos_length (sf : String → String) (fresh : Nat → String)
    (user tags desc now : String) :
    ∀ (fs : List UpFile) (i : Nat),
      (acceptedPhotos sf fresh user tags desc now i fs).length =
        (fs.filter (fun f => ok_fileA f.filename)).length := by
  intro fs
  induction fs with
  | nil => intro i; rfl
  | cons f rest ih =>
    intro i
    by_cases hf : ok_fileA f.filename
    · simp only [acceptedPhotos, hf, if_true, List.filter_cons, List.length_cons, ih]
    · simp only [acceptedPhotos, List.filter_cons, hf, if_false]
      exact ih i

/-- The upload loop's final state: the accepted records appended to the
store, their blob keys written, and one count per accepted file. -/
theorem uploadLoop_spec (sf : String → String) (fresh : Nat → String)
    (user tags desc now : String) :
    ∀ (fs : List UpFile) (i : Nat) (tbl : List Photo) (puts : List String) (cnt : Nat),
      uploadLoop sf fresh user tags desc now i tbl puts cnt fs =
        (tbl ++ acceptedPhotos sf fresh user tags desc now i fs,
         puts ++ (acceptedPhotos sf fresh user tags desc now i fs).map (fun p => p.s3_key),
         cnt + (fs.filter (fun f => ok_fileA f.filename)).length) := by
  intro fs
  induction fs with
  | nil => intro i tbl puts cnt; simp [uploadLoop, acceptedPhotos]
  | cons f rest ih =>
    intro i tbl puts cnt
    by_cases hf : ok_fileA f.filename
    · simp only [uploadLoop, acceptedPhotos, hf, if_true]
      rw [ih]
      simp only [Prod.mk.injEq, List.append_assoc, List.singleton_append,
        List.map_cons, List.filter_cons, hf, if_true, List.length_cons]
      refine ⟨trivial, trivial, by omega⟩
    · simp only [uploadLoop, acceptedPhotos, List.filter_cons, hf, if_false]
      exact ih i tbl puts cnt

/-- C10, corrected (counterexample): the handler returns early — performing
no store I/O at all — whenever the *first* submitted file has an empty
filename, even if a later file passes the acceptance check; so the
writes-iff-predicate claim fails for such batches. -/
theorem C10_first_file_guard_counterexample :
    ok_fileA "cat.png" = true ∧
    upload (fun s => s) (fun _ => "p") "alice" [] [⟨""⟩, ⟨"cat.png"⟩] "" "" "T1" =
      UploadResult.noFiles := by
  exact ⟨by decide, rfl⟩

/-- C10, amended: for a submitted batch whose first file has a non-empty
filename, the handler writes one blob and one photo record for exactly the
files whose name contains a dot with an allowed lowercased extension after
the last dot, skips the others without touching the stores, reports the
number of accepted files, and the acceptance predicate is identical in both
backends. -/
theorem C10_upload_accept_predicate
    (sf : String → String) (fresh : Nat → String) (user : String)
    (tbl : List Photo) (f0 : UpFile) (fs : List UpFile)
    (tagsRaw descRaw now : String)
    (h0 : f0.filename ≠ "") :
    upload sf fresh user tbl (f0 :: fs) tagsRaw descRaw now =
      UploadResult.done
        (tbl ++ acceptedPhotos sf fresh user (stripStr tagsRaw) (stripStr descRaw) now
          0 (f0 :: fs))
        ((acceptedPhotos sf fresh user (stripStr tagsRaw) (stripStr descRaw) now
          0 (f0 :: fs)).map (fun p => p.s3_key))
        (((f0 :: fs).filter (fun f => ok_fileA f.filename)).length) ∧
    (∀ n, ok_fileA n = ok_fileB n) ∧
    (acceptedPhotos sf fresh user (stripStr tagsRaw) (stripStr descRaw) now
      0 (f0 :: fs)).length =
      ((f0 :: fs).filter (fun f => ok_fileA f.filename)).length := by
  refine ⟨?_, fun n => rfl, acceptedPhotos_length sf fresh user _ _ now (f0 :: fs) 0⟩
  simp only [upload]
  rw [if_neg h0, uploadLoop_spec]
  simp

/-- Witness for C10's amended theorem: one accepted and one rejected file. -/
theorem C10_upload_accept_predicate_witness :
    (UpFile.mk "cat.png").filename ≠ "" ∧
    upload (fun s => s) (fun _ => "p") "alice" [] [⟨"cat.png"⟩, ⟨"notes.txt"⟩] "" "" "T1" =
      UploadResult.done
        ([] ++ acceptedPhotos (fun s => s) (fun _ => "p") "alice" (stripStr "")
          (stripStr "") "T1" 0 [⟨"cat.png"⟩, ⟨"notes.txt"⟩])
        ((acceptedPhotos (fun s => s) (fun _ => "p") "alice" (stripStr "")
          (stripStr "") "T1" 0 [⟨"cat.png"⟩, ⟨"notes.txt"⟩]).map (fun p => p.s3_key))
        (([⟨"cat.png"⟩, ⟨"notes.txt"⟩].filter
          (fun f : UpFile => ok_fileA f.filename)).length) := by
  have h := C10_upload_accept_predicate (fun s => s) (fun _ => "p") "alice" []
    ⟨"cat.png"⟩ [⟨"notes.txt"⟩] "" "" "T1" (by decide)
  exact ⟨by decide, h.1⟩

end PhotoGallery
